import Mathlib

/-!
Verification of the TextAdventure engine (src/TextAdventure.py).

The containment model is embedded as a tree of entity identifiers: Python
compares Interactable objects by identity, which we model by giving every
entity a unique numeric id.  Per-entity attributes (name, breakable flag,
broken replacement, required breaking tool, kind, wall direction) live in an
attribute map `Nat → EAttr` passed to each operation, mirroring the object
fields of the source.  Mutating methods are embedded as pure functions from
the old tree to the new tree; code paths that raise in Python (an undefined
name) are embedded as `Option` results with `none` for the crash.
-/

namespace TextAdventure

/-- A node of the containment tree: the entity's id and the `contains` list
(`Interactable.contains` in the source). -/
inductive Tree : Type where
  | mk (eid : Nat) (children : List Tree)

/-- The entity id at the root of a subtree. -/
def Tree.eid : Tree → Nat
  | .mk i _ => i

/-- The `contains` list at the root of a subtree. -/
def Tree.children : Tree → List Tree
  | .mk _ cs => cs

/-- Source `inContainer` (src lines 836-852) on a forest: for each element, first all
of its own contents recursively, then the element itself, in list order. -/
def inContainerAux : List Tree → List Tree
  | [] => []
  | Tree.mk i cc :: rest => inContainerAux cc ++ [Tree.mk i cc] ++ inContainerAux rest

/-- Source `inContainer(obj)` (src lines 836-852): every object transitively contained
in `obj`, in the source's enumeration order. -/
def inContainer (obj : Tree) : List Tree :=
  inContainerAux obj.children

/-- Python `list.remove` as used by `Interactable.remove` (src lines 117-125):
drop the first element whose identity (id) matches, no-op when absent. -/
def removeFirst (x : Nat) : List Tree → List Tree
  | [] => []
  | c :: rest => if c.eid == x then rest else c :: removeFirst x rest

mutual
/-- Source `Interactable.removeSelf(subject)` (src lines 127-140): if the target id is
a direct child of `subject`, remove that child; otherwise, if it occurs deeper,
recurse into every child. -/
def removeSelf (x : Nat) : Tree → Tree
  | Tree.mk i cs =>
    if cs.any (fun c => c.eid == x) then Tree.mk i (removeFirst x cs)
    else if (inContainerAux cs).any (fun c => c.eid == x) then Tree.mk i (removeSelfAux x cs)
    else Tree.mk i cs

/-- The `for subobject in subject.contains: self.removeSelf(subobject)` loop. -/
def removeSelfAux (x : Nat) : List Tree → List Tree
  | [] => []
  | c :: rest => removeSelf x c :: removeSelfAux x rest
end

mutual
/-- Source `Interactable.replaceSelf(subject, replaceObj)` (src lines 142-158): on a
direct hit the source runs `subject.remove(self)` followed by
`subject.add(replaceObj)`, i.e. the first matching child is dropped and the
replacement is appended at the end of the `contains` list. -/
def replaceSelf (x : Nat) (r : Tree) : Tree → Tree
  | Tree.mk i cs =>
    if cs.any (fun c => c.eid == x) then Tree.mk i (removeFirst x cs ++ [r])
    else if (inContainerAux cs).any (fun c => c.eid == x) then Tree.mk i (replaceSelfAux x r cs)
    else Tree.mk i cs

/-- The `for subobject in subject.contains: self.replaceSelf(subobject, ...)` loop. -/
def replaceSelfAux (x : Nat) (r : Tree) : List Tree → List Tree
  | [] => []
  | c :: rest => replaceSelf x r c :: replaceSelfAux x r rest
end

/-- Number of nodes with id `x` in a forest (verification helper; a well-formed
world, where Python object identity is unique, has at most one per id). -/
def occAux (x : Nat) : List Tree → Nat
  | [] => 0
  | Tree.mk i cc :: rest => (if i = x then 1 else 0) + occAux x cc + occAux x rest

/-- Number of nodes with id `x` in a subtree, root included. -/
def occ (x : Nat) (t : Tree) : Nat :=
  (if t.eid = x then 1 else 0) + occAux x t.children

/-- Ids of the nodes of a forest that directly contain a child with id `x`
(verification helper used to state "the replacement sits in the same
container"). -/
def containerIdsAux (x : Nat) : List Tree → List Nat
  | [] => []
  | Tree.mk i cc :: rest =>
      (if cc.any (fun c => c.eid == x) then [i] else []) ++ containerIdsAux x cc ++
        containerIdsAux x rest

/-- Ids of the nodes of a tree (root included) that directly contain a child
with id `x`. -/
def containerIds (x : Nat) (t : Tree) : List Nat :=
  (if t.children.any (fun c => c.eid == x) then [t.eid] else []) ++ containerIdsAux x t.children

/-- The Python class of an entity, checked by the source with `type(item) == Wall`
and the like. -/
inductive EKind : Type where
  | generic
  | room
  | wall
  | door
  | key
  | player
deriving DecidableEq

/-- Per-entity attributes of an `Interactable` (src lines 89-99, 247-249):
everything `destroy`, `unlock` and the dispatcher read apart from the
`contains` tree.  `brokenItem` is the whole replacement subtree (its nested
contents move with it), `breakKey` is the id of the required breaking tool,
`none` standing for the Python sentinel `0`. -/
structure EAttr : Type where
  name : String
  kind : EKind := EKind.generic
  direction : String := "N"
  breakAble : Bool := false
  brokenItem : Option Tree := none
  breakKey : Option Nat := none

/-- The state read and mutated by `Interactable.destroy`: the player's direct
`contains` list (its inventory, read by the tool check before any mutation)
and the `room` tree (the only structure the method mutates, via
`removeSelf`/`replaceSelf`). -/
structure PlayerSt : Type where
  contains : List Tree
  room : Tree

/-- Source `Interactable.destroy` for the `player == 0` default argument (src line
192): question text, nothing mutated.  Unreachable from the dispatcher, which
always passes the player. -/
def destroyNoPlayer (attr : Nat → EAttr) (selfId : Nat) : String :=
  "Who is breaking the " ++ (attr selfId).name ++ "?"

/-- Source `Interactable.destroy(player)` with a player present (src lines 177-211).
Returns the narration and the player's room tree afterwards.  The tool check
`self.breakKey in player.contains` inspects only the player's direct
`contains` list. -/
def destroy (attr : Nat → EAttr) (selfId : Nat) (p : PlayerSt) : String × Tree :=
  let a := attr selfId
  if a.name = "Nothing" then ("You can't break that.", p.room)
  else if a.breakAble = false then ("You can't break the " ++ a.name ++ ".", p.room)
  else
    match a.breakKey with
    | none =>
      match a.brokenItem with
      | some br =>
          ("You destroy the " ++ a.name ++ ", leaving behind a " ++ (attr br.eid).name ++ ".",
            replaceSelf selfId br p.room)
      | none => ("You destroy the " ++ a.name ++ ".", removeSelf selfId p.room)
    | some k =>
      if p.contains.any (fun c => c.eid == k) then
        match a.brokenItem with
        | some br =>
            ("You destroy the " ++ a.name ++ " with the " ++ (attr k).name ++
                ", leaving behind a " ++ (attr br.eid).name ++ ".",
              replaceSelf selfId br p.room)
        | none =>
            ("You destroy the " ++ a.name ++ " with the " ++ (attr k).name ++ ".",
              removeSelf selfId p.room)
      else ("You need a " ++ (attr k).name ++ " to break the " ++ a.name ++ ".", p.room)

/-- Source `Player.destroy(obj)` (src lines 449-452): Python's identity test
`obj == self` becomes equality of entity ids. -/
def playerDestroy (attr : Nat → EAttr) (selfId targetId : Nat) (p : PlayerSt) : String × Tree :=
  if targetId = selfId then ("You can't be harmed! You're the protaginist!", p.room)
  else destroy attr targetId p

/-- Source `Player.unlock(obj)` (src lines 426-439).  `lock` is the door's current
`key` field (`none` = the Python sentinel `0` = unlocked); the key search
`obj.key in inContainer(self)` walks the player's inventory transitively.
Returns the narration and the door's `key` field afterwards. -/
def playerUnlock (attr : Nat → EAttr) (objId : Nat) (lock : Option Nat) (p : PlayerSt) :
    String × Option Nat :=
  let a := attr objId
  if a.name = "Nothing" then ("What do you want to unlock?", lock)
  else if a.kind ≠ EKind.door then ("You can't unlock the " ++ a.name ++ ".", lock)
  else
    match lock with
    | none => ("The " ++ a.name ++ " is already unlocked.", lock)
    | some k =>
      if (inContainerAux p.contains).any (fun c => c.eid == k) then
        ("You unlock the " ++ a.name ++ " with the " ++ (attr k).name ++ ".", none)
      else ("You don't have a key.", some k)

/-- Source `Key.use(player)` (src lines 487-498) with a player present.  `target` is
the key's `target` field, `locks` maps each door id to its `key` field.  On
success the source clears both `self.target.key` and `self.target`.  The final
else-branch of the source calls the undefined name `output(...)` and raises
`NameError`; that crash is embedded as `none`. -/
def keyUse (attr : Nat → EAttr) (keyId : Nat) (target : Option Nat)
    (locks : Nat → Option Nat) (room : Tree) :
    Option (String × Option Nat × (Nat → Option Nat)) :=
  match target with
  | none => some ("This key does not go anywhere new.", none, locks)
  | some tid =>
    if (inContainer room).any (fun c => c.eid == tid) then
      some ("You unlock the " ++ (attr tid).name ++ " with the " ++ (attr keyId).name ++ ".",
        none, fun d => if d = tid then none else locks d)
    else none

/-- Source `Key.use` for the `player == 0` default argument (src line 488). -/
def keyUseNoPlayer (attr : Nat → EAttr) (keyId : Nat) : String :=
  "Who is using the " ++ (attr keyId).name ++ "?"

/-- ASCII lowercasing of one character: the fragment of Python `str.lower`
relevant to the game's vocabulary (the main loop strips everything but ASCII
letters and spaces before parsing). -/
def lowerChar (c : Char) : Char :=
  match c with
  | 'A' => 'a' | 'B' => 'b' | 'C' => 'c' | 'D' => 'd' | 'E' => 'e' | 'F' => 'f'
  | 'G' => 'g' | 'H' => 'h' | 'I' => 'i' | 'J' => 'j' | 'K' => 'k' | 'L' => 'l'
  | 'M' => 'm' | 'N' => 'n' | 'O' => 'o' | 'P' => 'p' | 'Q' => 'q' | 'R' => 'r'
  | 'S' => 's' | 'T' => 't' | 'U' => 'u' | 'V' => 'v' | 'W' => 'w' | 'X' => 'x'
  | 'Y' => 'y' | 'Z' => 'z'
  | other => other

/-- Python `text.lower()` on a string. -/
def lowerStr (s : String) : String :=
  String.mk (s.data.map lowerChar)

/-- Source `getAlias(text)` (src lines 521-536).  The alias dictionary — loaded from
`aliases.csv`, external data not part of the source tree — is modelled as an
association list with unique keys; the Python `try/except` around the dict
lookup becomes a match on `List.lookup`. -/
def getAlias (tbl : List (String × String)) (text : String) : String :=
  let t := lowerStr text
  match tbl.lookup t with
  | some v => v
  | none => t

/-- Source `reverseAlias(text)` (src lines 538-553): the word itself, followed by
every dictionary key mapping to it, in table order. -/
def reverseAlias (tbl : List (String × String)) (text : String) : List String :=
  text :: (tbl.filter (fun p => p.2 = text)).map (fun p => p.1)

/-- Does `needle` occur at the head of `hay`?  Helper for Python's substring
test `needle in hay`. -/
def subAt : List Char → List Char → Bool
  | [], _ => true
  | _ :: _, [] => false
  | a :: as, b :: bs => a == b && subAt as bs

/-- Python's substring containment `needle in hay` on strings, over the
underlying character lists. -/
def hasSub (needle : List Char) : List Char → Bool
  | [] => needle.isEmpty
  | b :: bs => subAt needle (b :: bs) || hasSub needle bs

/-- The adjective test of the disambiguation loop (src lines 947-948): some
term of the reverse-alias expansion of the current adjective occurs inside the
candidate name and is not a single character. -/
def adjSat (tbl : List (String × String)) (adjective : String) (m : String) : Bool :=
  (reverseAlias tbl adjective).any (fun sub => hasSub sub.data m.data && sub.length != 1)

/-- The `matches` list of the unmatched-term branch (src lines 931-935): for
each term of the reverse-alias expansion, every visible noun name containing
it as a substring, in pre-enumeration order. -/
def candidateMatches (tbl : List (String × String)) (nounNames : List String)
    (term : String) : List String :=
  (reverseAlias tbl term).foldr
    (fun possibleTerm acc => nounNames.filter (fun sub => hasSub possibleTerm.data sub.data) ++ acc)
    []

/-- The disambiguation of a partially-matching term (src lines 936-953): zero
matches leave `noun` alone, one match binds it, several matches run the
adjective loop — whose body overwrites `noun` on every candidate that passes
`adjSat` — and fall back to the first match only when `noun` is still the
string `"None"`. -/
def disambiguate (tbl : List (String × String)) (adjective : String)
    (ms : List String) (noun0 : String) : String :=
  if ms.length = 0 then noun0
  else if ms.length = 1 then ms.headD noun0
  else
    let n := ms.foldl (fun acc m => if adjSat tbl adjective m then m else acc) noun0
    if n = "None" then ms.headD noun0 else n

/-- The whole unmatched-term branch (src lines 930-953): build the candidate
list, then disambiguate. -/
def unmatchedTermStep (tbl : List (String × String)) (nounNames : List String)
    (adjective : String) (term : String) (noun0 : String) : String :=
  disambiguate tbl adjective (candidateMatches tbl nounNames term) noun0

/-- The wall test of the implicit-look rule (src lines 975-977):
`type(item) == Wall and item.direction == adjective`. -/
def isWallDir (attr : Nat → EAttr) (adjective : String) (item : Tree) : Bool :=
  decide ((attr item.eid).kind = EKind.wall) && decide ((attr item.eid).direction = adjective)

/-- The implicit-look rule of the dispatcher (src lines 969-978): with a
single-term input the subject becomes the player's room; otherwise, with a
compass adjective, the loop over `inContainer(user.room)` overwrites the
subject with every matching wall (last one wins); otherwise the subject is
left alone.  `none` stands for the unresolved `"Nothing"` placeholder. -/
def lookResolve (attr : Nat → EAttr) (termCount : Nat) (adjective : String)
    (room : Tree) (subject0 : Option Tree) : Option Tree :=
  if termCount = 1 then some room
  else if (["N", "E", "W", "S"] : List String).contains adjective then
    (inContainer room).foldl
      (fun acc item => if isWallDir attr adjective item then some item else acc) subject0
  else subject0

/-! ### Basic facts about the tree operations -/

@[simp] theorem eid_mk (i : Nat) (cs : List Tree) : (Tree.mk i cs).eid = i := rfl

@[simp] theorem children_mk (i : Nat) (cs : List Tree) : (Tree.mk i cs).children = cs := rfl

theorem occAux_cons (x : Nat) (t : Tree) (rest : List Tree) :
    occAux x (t :: rest) = (if t.eid = x then 1 else 0) + occAux x t.children + occAux x rest := by
  cases t with
  | mk i cc => rw [occAux]; rfl

theorem occAux_append (x : Nat) : ∀ (l1 l2 : List Tree),
    occAux x (l1 ++ l2) = occAux x l1 + occAux x l2
  | [], l2 => by simp [occAux]
  | Tree.mk i cc :: rest, l2 => by
      rw [List.cons_append, occAux, occAux, occAux_append x rest l2]
      omega

theorem occAux_singleton (x : Nat) (t : Tree) : occAux x [t] = occ x t := by
  cases t with
  | mk i cc => rw [occAux, occ, occAux]; rfl

theorem inContainerAux_cons (t : Tree) (rest : List Tree) :
    inContainerAux (t :: rest) = inContainerAux t.children ++ [t] ++ inContainerAux rest := by
  cases t with
  | mk i cc => rw [inContainerAux]; rfl

theorem any_eid_eq_false_of_occAux_eq_zero (x : Nat) : ∀ (cs : List Tree),
    occAux x cs = 0 → cs.any (fun c => c.eid == x) = false
  | [], _ => rfl
  | Tree.mk i cc :: rest, h => by
      rw [occAux] at h
      by_cases hix : i = x
      · rw [if_pos hix] at h; omega
      · rw [if_neg hix] at h
        have hrest := any_eid_eq_false_of_occAux_eq_zero x rest (by omega)
        rw [List.any_cons, eid_mk, hrest, Bool.or_false]
        simp [hix]

theorem one_le_occAux_of_any (x : Nat) : ∀ (cs : List Tree),
    cs.any (fun c => c.eid == x) = true → 1 ≤ occAux x cs
  | [], h => by simp at h
  | Tree.mk i cc :: rest, h => by
      rw [occAux]
      by_cases hix : i = x
      · rw [if_pos hix]; omega
      · rw [if_neg hix]
        rw [List.any_cons, eid_mk] at h
        have hbe : (i == x) = false := by simp [hix]
        rw [hbe, Bool.false_or] at h
        have := one_le_occAux_of_any x rest h
        omega

theorem any_inContainerAux_eq_false (x : Nat) : ∀ (cs : List Tree),
    ((inContainerAux cs).any (fun c => c.eid == x) = false) ↔ occAux x cs = 0
  | [] => by simp [inContainerAux, occAux]
  | Tree.mk i cc :: rest => by
      have h1 := any_inContainerAux_eq_false x cc
      have h2 := any_inContainerAux_eq_false x rest
      rw [inContainerAux, occAux, List.any_append, List.any_append, List.any_cons, List.any_nil,
        eid_mk, Bool.or_false]
      simp only [Bool.or_eq_false_iff]
      rw [h1, h2]
      by_cases hix : i = x
      · rw [if_pos hix]
        subst hix
        constructor
        · intro hc
          exact absurd hc.1.2 (by simp)
        · intro hc
          omega
      · rw [if_neg hix]
        have hbe : (i == x) = false := by simp [hix]
        simp only [hbe]
        constructor
        · intro hc
          omega
        · intro hc
          exact ⟨⟨by omega, trivial⟩, by omega⟩

theorem occAux_removeFirst_le (x y : Nat) : ∀ (cs : List Tree),
    occAux y (removeFirst x cs) ≤ occAux y cs
  | [] => Nat.le_refl _
  | c :: rest => by
      rw [removeFirst]
      by_cases h : c.eid = x
      · rw [if_pos (by simp [h])]
        rw [occAux_cons]
        omega
      · rw [if_neg (by simp [h])]
        rw [occAux_cons, occAux_cons]
        have := occAux_removeFirst_le x y rest
        omega

theorem occAux_removeFirst_zero (x : Nat) : ∀ (cs : List Tree),
    cs.any (fun c => c.eid == x) = true → occAux x cs ≤ 1 → occAux x (removeFirst x cs) = 0
  | [], hany, _ => by simp at hany
  | c :: rest, hany, hle => by
      rw [occAux_cons] at hle
      rw [removeFirst]
      by_cases h : c.eid = x
      · rw [if_pos (by simp [h] : (c.eid == x) = true)]
        rw [if_pos h] at hle
        omega
      · rw [if_neg (by simp [h])]
        rw [List.any_cons] at hany
        have hbe : (c.eid == x) = false := by simp [h]
        rw [hbe, Bool.false_or] at hany
        have h1 := one_le_occAux_of_any x rest hany
        rw [occAux_cons, occAux_removeFirst_zero x rest hany (by omega)]
        rw [if_neg h] at hle ⊢
        omega

theorem removeSelf_eq_direct (x i : Nat) (cs : List Tree)
    (hd : cs.any (fun c => c.eid == x) = true) :
    removeSelf x (Tree.mk i cs) = Tree.mk i (removeFirst x cs) := by
  rw [removeSelf, if_pos hd]

theorem removeSelf_eq_deep (x i : Nat) (cs : List Tree)
    (hd : cs.any (fun c => c.eid == x) = false)
    (hdeep : (inContainerAux cs).any (fun c => c.eid == x) = true) :
    removeSelf x (Tree.mk i cs) = Tree.mk i (removeSelfAux x cs) := by
  rw [removeSelf, if_neg (by rw [hd]; exact Bool.false_ne_true), if_pos hdeep]

theorem removeSelf_eq_none (x i : Nat) (cs : List Tree)
    (hd : cs.any (fun c => c.eid == x) = false)
    (hdeep : (inContainerAux cs).any (fun c => c.eid == x) = false) :
    removeSelf x (Tree.mk i cs) = Tree.mk i cs := by
  rw [removeSelf, if_neg (by rw [hd]; exact Bool.false_ne_true),
    if_neg (by rw [hdeep]; exact Bool.false_ne_true)]

theorem replaceSelf_eq_direct (x i : Nat) (r : Tree) (cs : List Tree)
    (hd : cs.any (fun c => c.eid == x) = true) :
    replaceSelf x r (Tree.mk i cs) = Tree.mk i (removeFirst x cs ++ [r]) := by
  rw [replaceSelf, if_pos hd]

theorem replaceSelf_eq_deep (x i : Nat) (r : Tree) (cs : List Tree)
    (hd : cs.any (fun c => c.eid == x) = false)
    (hdeep : (inContainerAux cs).any (fun c => c.eid == x) = true) :
    replaceSelf x r (Tree.mk i cs) = Tree.mk i (replaceSelfAux x r cs) := by
  rw [replaceSelf, if_neg (by rw [hd]; exact Bool.false_ne_true), if_pos hdeep]

theorem replaceSelf_eq_none (x i : Nat) (r : Tree) (cs : List Tree)
    (hd : cs.any (fun c => c.eid == x) = false)
    (hdeep : (inContainerAux cs).any (fun c => c.eid == x) = false) :
    replaceSelf x r (Tree.mk i cs) = Tree.mk i cs := by
  rw [replaceSelf, if_neg (by rw [hd]; exact Bool.false_ne_true),
    if_neg (by rw [hdeep]; exact Bool.false_ne_true)]

theorem occAux_removeSelfAux (x : Nat) : ∀ (cs : List Tree),
    (∀ c ∈ cs, c.eid ≠ x) → occAux x cs ≤ 1 → occAux x (removeSelfAux x cs) = 0
  | [], _, _ => by simp [removeSelfAux, occAux]
  | Tree.mk i cc :: rest, hne, hle => by
      rw [removeSelfAux, occAux_cons]
      rw [occAux_cons] at hle
      have hi : i ≠ x := by
        have := hne (Tree.mk i cc) (List.mem_cons_self _ _)
        simpa using this
      rw [eid_mk, children_mk, if_neg hi] at hle
      have hrest : occAux x (removeSelfAux x rest) = 0 :=
        occAux_removeSelfAux x rest (fun c hc => hne c (List.mem_cons_of_mem _ hc)) (by omega)
      by_cases hd : cc.any (fun c => c.eid == x) = true
      · rw [removeSelf_eq_direct x i cc hd, eid_mk, children_mk, if_neg hi, hrest,
          occAux_removeFirst_zero x cc hd (by omega)]
      · rw [Bool.not_eq_true] at hd
        by_cases hdeep : (inContainerAux cc).any (fun c => c.eid == x) = true
        · rw [removeSelf_eq_deep x i cc hd hdeep, eid_mk, children_mk, if_neg hi, hrest]
          have hcc : occAux x (removeSelfAux x cc) = 0 := by
            refine occAux_removeSelfAux x cc ?_ (by omega)
            intro c hc
            intro hcx
            have hb : (c.eid == x) = true := by simp [hcx]
            have := List.any_of_mem (p := fun c => c.eid == x) hc hb
            rw [hd] at this
            exact Bool.false_ne_true this
          rw [hcc]
        · rw [Bool.not_eq_true] at hdeep
          rw [removeSelf_eq_none x i cc hd hdeep, eid_mk, children_mk, if_neg hi, hrest,
            (any_inContainerAux_eq_false x cc).mp hdeep]

theorem occAux_removeSelf_children (x : Nat) (t : Tree) (h : occAux x t.children ≤ 1) :
    occAux x (removeSelf x t).children = 0 := by
  cases t with
  | mk i cs =>
    rw [children_mk] at h
    by_cases hd : cs.any (fun c => c.eid == x) = true
    · rw [removeSelf_eq_direct x i cs hd, children_mk]
      exact occAux_removeFirst_zero x cs hd h
    · rw [Bool.not_eq_true] at hd
      by_cases hdeep : (inContainerAux cs).any (fun c => c.eid == x) = true
      · rw [removeSelf_eq_deep x i cs hd hdeep, children_mk]
        refine occAux_removeSelfAux x cs ?_ h
        intro c hc hcx
        have hb : (c.eid == x) = true := by simp [hcx]
        have := List.any_of_mem (p := fun c => c.eid == x) hc hb
        rw [hd] at this
        exact Bool.false_ne_true this
      · rw [Bool.not_eq_true] at hdeep
        rw [removeSelf_eq_none x i cs hd hdeep, children_mk]
        exact (any_inContainerAux_eq_false x cs).mp hdeep

theorem occAux_replaceSelfAux (x : Nat) (r : Tree) (hr : occ x r = 0) : ∀ (cs : List Tree),
    (∀ c ∈ cs, c.eid ≠ x) → occAux x cs ≤ 1 → occAux x (replaceSelfAux x r cs) = 0
  | [], _, _ => by simp [replaceSelfAux, occAux]
  | Tree.mk i cc :: rest, hne, hle => by
      rw [replaceSelfAux, occAux_cons]
      rw [occAux_cons] at hle
      have hi : i ≠ x := by
        have := hne (Tree.mk i cc) (List.mem_cons_self _ _)
        simpa using this
      rw [eid_mk, children_mk, if_neg hi] at hle
      have hrest : occAux x (replaceSelfAux x r rest) = 0 :=
        occAux_replaceSelfAux x r hr rest (fun c hc => hne c (List.mem_cons_of_mem _ hc)) (by omega)
      by_cases hd : cc.any (fun c => c.eid == x) = true
      · rw [replaceSelf_eq_direct x i r cc hd, eid_mk, children_mk, if_neg hi, hrest,
          occAux_append, occAux_removeFirst_zero x cc hd (by omega), occAux_singleton, hr]
      · rw [Bool.not_eq_true] at hd
        by_cases hdeep : (inContainerAux cc).any (fun c => c.eid == x) = true
        · rw [replaceSelf_eq_deep x i r cc hd hdeep, eid_mk, children_mk, if_neg hi, hrest]
          have hcc : occAux x (replaceSelfAux x r cc) = 0 := by
            refine occAux_replaceSelfAux x r hr cc ?_ (by omega)
            intro c hc hcx
            have hb : (c.eid == x) = true := by simp [hcx]
            have := List.any_of_mem (p := fun c => c.eid == x) hc hb
            rw [hd] at this
            exact Bool.false_ne_true this
          rw [hcc]
        · rw [Bool.not_eq_true] at hdeep
          rw [replaceSelf_eq_none x i r cc hd hdeep, eid_mk, children_mk, if_neg hi, hrest,
            (any_inContainerAux_eq_false x cc).mp hdeep]

theorem occAux_replaceSelf_children (x : Nat) (r t : Tree) (hr : occ x r = 0)
    (h : occAux x t.children ≤ 1) : occAux x (replaceSelf x r t).children = 0 := by
  cases t with
  | mk i cs =>
    rw [children_mk] at h
    by_cases hd : cs.any (fun c => c.eid == x) = true
    · rw [replaceSelf_eq_direct x i r cs hd, children_mk, occAux_append,
        occAux_removeFirst_zero x cs hd h, occAux_singleton, hr]
    · rw [Bool.not_eq_true] at hd
      by_cases hdeep : (inContainerAux cs).any (fun c => c.eid == x) = true
      · rw [replaceSelf_eq_deep x i r cs hd hdeep, children_mk]
        refine occAux_replaceSelfAux x r hr cs ?_ h
        intro c hc hcx
        have hb : (c.eid == x) = true := by simp [hcx]
        have := List.any_of_mem (p := fun c => c.eid == x) hc hb
        rw [hd] at this
        exact Bool.false_ne_true this
      · rw [Bool.not_eq_true] at hdeep
        rw [replaceSelf_eq_none x i r cs hd hdeep, children_mk]
        exact (any_inContainerAux_eq_false x cs).mp hdeep

theorem replaceSelf_eid (x : Nat) (r t : Tree) : (replaceSelf x r t).eid = t.eid := by
  cases t with
  | mk i cs =>
    by_cases hd : cs.any (fun c => c.eid == x) = true
    · rw [replaceSelf_eq_direct x i r cs hd, eid_mk, eid_mk]
    · rw [Bool.not_eq_true] at hd
      by_cases hdeep : (inContainerAux cs).any (fun c => c.eid == x) = true
      · rw [replaceSelf_eq_deep x i r cs hd hdeep, eid_mk, eid_mk]
      · rw [replaceSelf_eq_none x i r cs hd (by rw [Bool.not_eq_true] at hdeep; exact hdeep)]

theorem any_eid_replaceSelfAux (x y : Nat) (r : Tree) : ∀ (cs : List Tree),
    (replaceSelfAux x r cs).any (fun c => c.eid == y) = cs.any (fun c => c.eid == y)
  | [] => by rw [replaceSelfAux]
  | c :: rest => by
      rw [replaceSelfAux, List.any_cons, List.any_cons, replaceSelf_eid,
        any_eid_replaceSelfAux x y r rest]

theorem containerIdsAux_cons (x : Nat) (t : Tree) (rest : List Tree) :
    containerIdsAux x (t :: rest) = containerIds x t ++ containerIdsAux x rest := by
  cases t with
  | mk i cc =>
    rw [containerIdsAux, containerIds, children_mk, eid_mk, List.append_assoc]

theorem containerIdsAux_nil_of_occAux (x : Nat) : ∀ (cs : List Tree),
    occAux x cs = 0 → containerIdsAux x cs = []
  | [], _ => by rw [containerIdsAux]
  | Tree.mk i cc :: rest, h => by
      rw [occAux] at h
      rw [containerIdsAux]
      have hcc : occAux x cc = 0 := by omega
      have hrest : occAux x rest = 0 := by omega
      rw [any_eid_eq_false_of_occAux_eq_zero x cc hcc,
        containerIdsAux_nil_of_occAux x cc hcc, containerIdsAux_nil_of_occAux x rest hrest]
      simp

theorem containerIdsAux_nil_of_direct (x : Nat) : ∀ (cs : List Tree),
    cs.any (fun c => c.eid == x) = true → occAux x cs ≤ 1 → containerIdsAux x cs = []
  | [], hany, _ => by simp at hany
  | Tree.mk i cc :: rest, hany, hle => by
      rw [containerIdsAux]
      rw [occAux] at hle
      by_cases hix : i = x
      · rw [if_pos hix] at hle
        have hcc : occAux x cc = 0 := by omega
        have hrest : occAux x rest = 0 := by omega
        rw [any_eid_eq_false_of_occAux_eq_zero x cc hcc,
          containerIdsAux_nil_of_occAux x cc hcc, containerIdsAux_nil_of_occAux x rest hrest]
        simp
      · rw [if_neg hix] at hle
        rw [List.any_cons, eid_mk] at hany
        have hbe : (i == x) = false := by simp [hix]
        rw [hbe, Bool.false_or] at hany
        have h1 := one_le_occAux_of_any x rest hany
        have hcc : occAux x cc = 0 := by omega
        rw [any_eid_eq_false_of_occAux_eq_zero x cc hcc,
          containerIdsAux_nil_of_occAux x cc hcc,
          containerIdsAux_nil_of_direct x rest hany (by omega)]
        simp

theorem containerIdsAux_append (x : Nat) : ∀ (l1 l2 : List Tree),
    containerIdsAux x (l1 ++ l2) = containerIdsAux x l1 ++ containerIdsAux x l2
  | [], l2 => by rw [containerIdsAux, List.nil_append, List.nil_append]
  | Tree.mk i cc :: rest, l2 => by
      rw [List.cons_append, containerIdsAux, containerIdsAux,
        containerIdsAux_append x rest l2, List.append_assoc, List.append_assoc,
        List.append_assoc]

theorem eid_ne_of_any_eq_false (x : Nat) (cs : List Tree)
    (h : cs.any (fun c => c.eid == x) = false) : ∀ c ∈ cs, c.eid ≠ x := by
  intro c hc hcx
  have hb : (c.eid == x) = true := by simp [hcx]
  have := List.any_of_mem (p := fun c => c.eid == x) hc hb
  rw [h] at this
  exact Bool.false_ne_true this

mutual
theorem containerIds_replaceSelf (x : Nat) (r t : Tree)
    (h1 : occAux x t.children ≤ 1) (h2 : occAux r.eid t.children = 0)
    (h4 : occAux r.eid r.children = 0) :
    containerIds r.eid (replaceSelf x r t) = containerIds x t := by
  cases t with
  | mk i cs =>
    rw [children_mk] at h1 h2
    by_cases hd : cs.any (fun c => c.eid == x) = true
    · rw [replaceSelf_eq_direct x i r cs hd]
      simp only [containerIds, children_mk, eid_mk]
      have hany : (removeFirst x cs ++ [r]).any (fun c => c.eid == r.eid) = true := by
        rw [List.any_append]
        simp
      rw [if_pos hany, if_pos hd, containerIdsAux_append]
      have hrf : containerIdsAux r.eid (removeFirst x cs) = [] :=
        containerIdsAux_nil_of_occAux r.eid (removeFirst x cs)
          (Nat.le_zero.mp (h2 ▸ occAux_removeFirst_le x r.eid cs))
      have hsing : containerIdsAux r.eid [r] = [] := by
        rw [containerIdsAux_cons, containerIdsAux, containerIds,
          any_eid_eq_false_of_occAux_eq_zero r.eid r.children h4,
          containerIdsAux_nil_of_occAux r.eid r.children h4]
        simp
      rw [hrf, hsing, containerIdsAux_nil_of_direct x cs hd h1]
      rfl
    · rw [Bool.not_eq_true] at hd
      by_cases hdeep : (inContainerAux cs).any (fun c => c.eid == x) = true
      · rw [replaceSelf_eq_deep x i r cs hd hdeep]
        simp only [containerIds, children_mk, eid_mk]
        rw [any_eid_replaceSelfAux x r.eid r cs]
        have hf1 : ¬ (cs.any (fun c => c.eid == r.eid) = true) := by
          rw [any_eid_eq_false_of_occAux_eq_zero r.eid cs h2]
          exact Bool.false_ne_true
        have hf2 : ¬ (cs.any (fun c => c.eid == x) = true) := by
          rw [hd]
          exact Bool.false_ne_true
        rw [if_neg hf1, if_neg hf2,
          containerIdsAux_replaceSelfAux x r h4 cs (eid_ne_of_any_eq_false x cs hd) h1 h2]
      · rw [Bool.not_eq_true] at hdeep
        rw [replaceSelf_eq_none x i r cs hd hdeep]
        simp only [containerIds, children_mk, eid_mk]
        have hocc : occAux x cs = 0 := (any_inContainerAux_eq_false x cs).mp hdeep
        have hf1 : ¬ (cs.any (fun c => c.eid == r.eid) = true) := by
          rw [any_eid_eq_false_of_occAux_eq_zero r.eid cs h2]
          exact Bool.false_ne_true
        have hf2 : ¬ (cs.any (fun c => c.eid == x) = true) := by
          rw [hd]
          exact Bool.false_ne_true
        rw [if_neg hf1, if_neg hf2, containerIdsAux_nil_of_occAux r.eid cs h2,
          containerIdsAux_nil_of_occAux x cs hocc]

theorem containerIdsAux_replaceSelfAux (x : Nat) (r : Tree)
    (h4 : occAux r.eid r.children = 0) : ∀ (cs : List Tree),
    (∀ c ∈ cs, c.eid ≠ x) → occAux x cs ≤ 1 → occAux r.eid cs = 0 →
    containerIdsAux r.eid (replaceSelfAux x r cs) = containerIdsAux x cs
  | [], _, _, _ => by rw [replaceSelfAux, containerIdsAux, containerIdsAux]
  | c :: rest, hne, h1, h2 => by
      rw [replaceSelfAux, containerIdsAux_cons, containerIdsAux_cons]
      rw [occAux_cons] at h1 h2
      have hcx : c.eid ≠ x := hne c (List.mem_cons_self _ _)
      rw [if_neg hcx] at h1
      have h2c : occAux r.eid c.children = 0 := by omega
      have h2rest : occAux r.eid rest = 0 := by omega
      rw [containerIds_replaceSelf x r c (by omega) h2c h4,
        containerIdsAux_replaceSelfAux x r h4 rest
          (fun d hdm => hne d (List.mem_cons_of_mem _ hdm)) (by omega) h2rest]
end

theorem removeFirst_sublist (x : Nat) : ∀ (cs : List Tree), List.Sublist (removeFirst x cs) cs
  | [] => List.Sublist.refl _
  | c :: rest => by
      rw [removeFirst]
      by_cases h : c.eid = x
      · rw [if_pos (by simp [h] : (c.eid == x) = true)]
        exact List.sublist_cons_self c rest
      · rw [if_neg (by simp [h] : ¬ (c.eid == x) = true)]
        exact List.Sublist.cons₂ c (removeFirst_sublist x rest)

theorem getLast?_cons_eq {α : Type} : ∀ (m : α) (lf : List α),
    (m :: lf).getLast? = some (lf.getLast?.getD m)
  | m, [] => rfl
  | m, y :: t => by
      rw [List.getLast?_cons_cons, getLast?_cons_eq y t]
      rfl

theorem foldl_pickD {α : Type} (f : α → Bool) : ∀ (l : List α) (a : α),
    l.foldl (fun acc m => if f m then m else acc) a = (l.filter f).getLast?.getD a
  | [], a => rfl
  | m :: l, a => by
      rw [List.foldl_cons]
      by_cases hm : f m = true
      · rw [if_pos hm, foldl_pickD f l m, List.filter_cons_of_pos hm, getLast?_cons_eq]
        cases hl : (l.filter f).getLast? with
        | none => rfl
        | some v => rfl
      · rw [if_neg hm, foldl_pickD f l a, List.filter_cons_of_neg (by simpa using hm)]

theorem foldl_pickO {α : Type} (f : α → Bool) : ∀ (l : List α) (a : Option α),
    l.foldl (fun acc m => if f m then some m else acc) a
      = ((l.filter f).getLast?).elim a some
  | [], a => rfl
  | m :: l, a => by
      rw [List.foldl_cons]
      by_cases hm : f m = true
      · rw [if_pos hm, foldl_pickO f l (some m), List.filter_cons_of_pos hm, getLast?_cons_eq]
        cases hl : (l.filter f).getLast? with
        | none => rfl
        | some v => rfl
      · rw [if_neg hm, foldl_pickO f l a, List.filter_cons_of_neg (by simpa using hm)]

theorem lowerChar_cases (c : Char) :
    lowerChar c = c ∨ lowerChar c ∈
      ['a','b','c','d','e','f','g','h','i','j','k','l','m',
       'n','o','p','q','r','s','t','u','v','w','x','y','z'] := by
  unfold lowerChar
  split <;> simp

theorem lowerChar_fix_lower (c : Char) (h : c ∈
      ['a','b','c','d','e','f','g','h','i','j','k','l','m',
       'n','o','p','q','r','s','t','u','v','w','x','y','z']) :
    lowerChar c = c := by
  fin_cases h <;> rfl

theorem lowerChar_idem (c : Char) : lowerChar (lowerChar c) = lowerChar c := by
  rcases lowerChar_cases c with h | h
  · rw [h]
    exact h
  · exact lowerChar_fix_lower _ h

theorem lowerStr_idem (s : String) : lowerStr (lowerStr s) = lowerStr s := by
  rw [lowerStr, lowerStr]
  cases s with
  | mk data =>
    simp only [String.data]
    rw [List.map_map]
    congr 1
    apply List.map_congr_left
    intro c _
    exact lowerChar_idem c

/-! ### Branch equations for `destroy` -/

theorem destroy_eq_needTool (attr : Nat → EAttr) (selfId k : Nat) (p : PlayerSt)
    (hname : (attr selfId).name ≠ "Nothing")
    (hbreak : (attr selfId).breakAble = true)
    (hkey : (attr selfId).breakKey = some k)
    (hno : p.contains.any (fun c => c.eid == k) = false) :
    destroy attr selfId p
      = ("You need a " ++ (attr k).name ++ " to break the " ++ (attr selfId).name ++ ".",
          p.room) := by
  simp only [destroy]
  rw [if_neg hname, if_neg (by rw [hbreak]; simp), hkey]
  simp [hno]

theorem destroy_eq_toolSuccess_none (attr : Nat → EAttr) (selfId k : Nat) (p : PlayerSt)
    (hname : (attr selfId).name ≠ "Nothing")
    (hbreak : (attr selfId).breakAble = true)
    (hkey : (attr selfId).breakKey = some k)
    (hyes : p.contains.any (fun c => c.eid == k) = true)
    (hbi : (attr selfId).brokenItem = none) :
    destroy attr selfId p
      = ("You destroy the " ++ (attr selfId).name ++ " with the " ++ (attr k).name ++ ".",
          removeSelf selfId p.room) := by
  simp only [destroy]
  rw [if_neg hname, if_neg (by rw [hbreak]; simp), hkey]
  simp [hyes, hbi]

theorem destroy_eq_toolSuccess_some (attr : Nat → EAttr) (selfId k : Nat) (br : Tree)
    (p : PlayerSt)
    (hname : (attr selfId).name ≠ "Nothing")
    (hbreak : (attr selfId).breakAble = true)
    (hkey : (attr selfId).breakKey = some k)
    (hyes : p.contains.any (fun c => c.eid == k) = true)
    (hbi : (attr selfId).brokenItem = some br) :
    destroy attr selfId p
      = ("You destroy the " ++ (attr selfId).name ++ " with the " ++ (attr k).name ++
            ", leaving behind a " ++ (attr br.eid).name ++ ".",
          replaceSelf selfId br p.room) := by
  simp only [destroy]
  rw [if_neg hname, if_neg (by rw [hbreak]; simp), hkey]
  simp [hyes, hbi]

/-! ### Claim theorems -/

/-- C10: invoking `Player.destroy` with the player itself as the target returns
the fixed protagonist-protection narration and leaves the room tree (and hence
the whole containment tree reachable from it) unchanged, for every attribute
map and every player state. -/
theorem claim10_playerDestroy_self_protected (attr : Nat → EAttr) (selfId : Nat)
    (p : PlayerSt) :
    playerDestroy attr selfId selfId p
      = ("You can't be harmed! You're the protaginist!", p.room) := by
  rw [playerDestroy, if_pos rfl]

/-- C8: using a Key whose target Door is present (transitively) in the player's
current room returns the unlock narration and clears both the door's lock and
the key's target in the same step, leaving the key inert. -/
theorem claim8_keyUse_unlock_single_use (attr : Nat → EAttr) (keyId tid : Nat)
    (locks : Nat → Option Nat) (room : Tree)
    (hin : (inContainer room).any (fun c => c.eid == tid) = true) :
    keyUse attr keyId (some tid) locks room
      = some ("You unlock the " ++ (attr tid).name ++ " with the " ++ (attr keyId).name ++ ".",
          none, fun d => if d = tid then none else locks d) := by
  simp only [keyUse]
  rw [if_pos hin]

/-- C8 witness: a Brass Key targeting an Oak Door nested on a wall of the
current room unlocks it and becomes inert. -/
theorem claim8_witness :
    keyUse
        (fun n => if n = 7 then { name := "Oak Door", kind := EKind.door }
          else ({ name := "Brass Key", kind := EKind.key } : EAttr))
        3 (some 7) (fun d => if d = 7 then some 3 else none)
        (Tree.mk 0 [Tree.mk 9 [Tree.mk 7 []]])
      = some ("You unlock the Oak Door with the Brass Key.", none,
          fun d => if d = 7 then none
            else (fun d => if d = 7 then some 3 else none : Nat → Option Nat) d) :=
  claim8_keyUse_unlock_single_use _ 3 7 _ _ (by simp [inContainer, inContainerAux])

/-- C3 (code bug): using a Key whose target is set but absent from the player's
current room does not return narration: the source's else-branch (src line 498)
calls the undefined name `output(...)` and raises `NameError`, aborting the
turn.  The crash is the `none` value of the embedded `keyUse`. -/
theorem claim3_keyUse_target_missing_crashes :
    keyUse (fun _ => ({ name := "Brass Key", kind := EKind.key } : EAttr))
        3 (some 7) (fun _ => none) (Tree.mk 0 [Tree.mk 5 []])
      = none := by
  simp [keyUse, inContainer, inContainerAux]

/-- C6 counterexample: the claim says alias resolution "returns the original
term unchanged when it is absent"; on the absent mixed-case term "Sword" the
source returns the lowercased "sword", not the original. -/
theorem claim6_counterexample :
    getAlias [("steel", "metal")] "Sword" = "sword" ∧ "sword" ≠ "Sword" := by
  constructor
  · decide
  · decide

/-- C6 (amended): alias resolution lowercases its input, then returns the
mapped canonical term when the lowercased term is a key of the table and the
lowercased (not the original) term when it is absent; it never fails, and it
is case-insensitive. -/
theorem claim6_getAlias_lower_spec (tbl : List (String × String)) (x : String) :
    (tbl.lookup (lowerStr x) = none → getAlias tbl x = lowerStr x)
    ∧ (∀ v, tbl.lookup (lowerStr x) = some v → getAlias tbl x = v)
    ∧ getAlias tbl x = getAlias tbl (lowerStr x) := by
  refine ⟨fun h => by rw [getAlias, h], fun v h => by rw [getAlias, h], ?_⟩
  rw [getAlias, getAlias, lowerStr_idem]

/-- C6 witness: with the table mapping "steel" to "metal", the present
mixed-case term "Steel" resolves to "metal" and the absent term "Sword"
resolves to its lowercased form. -/
theorem claim6_witness :
    getAlias [("steel", "metal")] "Steel" = "metal"
    ∧ getAlias [("steel", "metal")] "Sword" = lowerStr "Sword" :=
  ⟨(claim6_getAlias_lower_spec [("steel", "metal")] "Steel").2.1 "metal" (by decide),
   (claim6_getAlias_lower_spec [("steel", "metal")] "Sword").1 (by decide)⟩

/-- C7: alias resolution is idempotent for every term, over any alias table in
canonical form — every value of the table resolves to itself, the shape the
spec prescribes for the raw-to-canonical dictionary. -/
theorem claim7_getAlias_idem (tbl : List (String × String))
    (hcanon : ∀ k v, tbl.lookup k = some v → getAlias tbl v = v) (x : String) :
    getAlias tbl (getAlias tbl x) = getAlias tbl x := by
  cases h : tbl.lookup (lowerStr x) with
  | some v =>
    have hx : getAlias tbl x = v := by rw [getAlias, h]
    rw [hx]
    exact hcanon _ v h
  | none =>
    have hx : getAlias tbl x = lowerStr x := by rw [getAlias, h]
    rw [hx, getAlias, lowerStr_idem, h]

/-- C7 witness: a concrete two-entry table in canonical form, applied to the
mixed-case known term "OAK". -/
theorem claim7_witness :
    getAlias [("steel", "metal"), ("oak", "brass")]
        (getAlias [("steel", "metal"), ("oak", "brass")] "OAK")
      = getAlias [("steel", "metal"), ("oak", "brass")] "OAK" := by
  refine claim7_getAlias_idem _ ?_ "OAK"
  intro k v h
  rw [List.lookup] at h
  split at h
  · cases h
    decide
  · rw [List.lookup] at h
    split at h
    · cases h
      decide
    · rw [List.lookup] at h
      cases h

/-- C1 counterexample: a breakable Entity named "Nothing" whose required tool
is set and absent from the player's inventory is rejected by the placeholder
guard (src line 194) with "You can't break that." — not with the claimed
need-tool message — so the claim does not hold for every breakable Entity. -/
theorem claim1_counterexample :
    destroy
        (fun n => if n = 5 then
            { name := "Nothing", breakAble := true, breakKey := some 7 }
          else ({ name := "Hammer" } : EAttr))
        5 { contains := [], room := Tree.mk 0 [Tree.mk 5 []] }
      = ("You can't break that.", Tree.mk 0 [Tree.mk 5 []])
    ∧ "You can't break that." ≠ "You need a Hammer to break the Nothing." :=
  ⟨rfl, by decide⟩

/-- C1 (amended): for every breakable Entity not named "Nothing" whose
required-breaking-tool is set: if the tool is absent from the player's
inventory (the player's direct contains list), destroy returns the need-tool
rejection and leaves the room tree completely unchanged; if the tool is
present, destroy returns the success narration of the matching
remove-or-replace case and afterwards no node with the Entity's id occurs
anywhere in the room tree — so a second destroy of the same Entity cannot be
resolved from within that room — provided the world is well-formed (at most
one node per id, and the broken replacement does not reuse the destroyed id). -/
theorem claim1_destroy_tool_gate (attr : Nat → EAttr) (selfId k : Nat) (p : PlayerSt)
    (hname : (attr selfId).name ≠ "Nothing")
    (hbreak : (attr selfId).breakAble = true)
    (hkey : (attr selfId).breakKey = some k)
    (hocc : occAux selfId p.room.children ≤ 1)
    (hbi : ∀ br, (attr selfId).brokenItem = some br → occ selfId br = 0) :
    (p.contains.any (fun c => c.eid == k) = false →
      destroy attr selfId p
        = ("You need a " ++ (attr k).name ++ " to break the " ++ (attr selfId).name ++ ".",
            p.room))
    ∧ (p.contains.any (fun c => c.eid == k) = true →
        ((attr selfId).brokenItem = none →
          (destroy attr selfId p).1
            = "You destroy the " ++ (attr selfId).name ++ " with the " ++ (attr k).name ++ ".")
        ∧ (∀ br, (attr selfId).brokenItem = some br →
            (destroy attr selfId p).1
              = "You destroy the " ++ (attr selfId).name ++ " with the " ++ (attr k).name ++
                  ", leaving behind a " ++ (attr br.eid).name ++ ".")
        ∧ (inContainer (destroy attr selfId p).2).any (fun c => c.eid == selfId) = false) := by
  constructor
  · intro hno
    exact destroy_eq_needTool attr selfId k p hname hbreak hkey hno
  · intro hyes
    refine ⟨?_, ?_, ?_⟩
    · intro hbnone
      rw [destroy_eq_toolSuccess_none attr selfId k p hname hbreak hkey hyes hbnone]
    · intro br hbsome
      rw [destroy_eq_toolSuccess_some attr selfId k br p hname hbreak hkey hyes hbsome]
    · cases hb : (attr selfId).brokenItem with
      | none =>
        rw [destroy_eq_toolSuccess_none attr selfId k p hname hbreak hkey hyes hb, inContainer]
        exact (any_inContainerAux_eq_false selfId _).mpr
          (occAux_removeSelf_children selfId p.room hocc)
      | some br =>
        rw [destroy_eq_toolSuccess_some attr selfId k br p hname hbreak hkey hyes hb,
          inContainer]
        exact (any_inContainerAux_eq_false selfId _).mpr
          (occAux_replaceSelf_children selfId br p.room (hbi br hb) hocc)

/-- C1 witness: the Monster (id 5, tool id 3): without the Sword the destroy is
rejected and the room is unchanged; holding the Sword, after the destroy no
node with id 5 remains visible in the room. -/
theorem claim1_witness :
    destroy
        (fun n => if n = 5 then
            { name := "Monster", breakAble := true, breakKey := some 3,
              brokenItem := some (Tree.mk 4 []) }
          else ({ name := "Silvered Sword" } : EAttr))
        5 { contains := [], room := Tree.mk 0 [Tree.mk 5 []] }
      = ("You need a Silvered Sword to break the Monster.", Tree.mk 0 [Tree.mk 5 []])
    ∧ (inContainer
        (destroy
          (fun n => if n = 5 then
              { name := "Monster", breakAble := true, breakKey := some 3,
                brokenItem := some (Tree.mk 4 []) }
            else ({ name := "Silvered Sword" } : EAttr))
          5 { contains := [Tree.mk 3 []], room := Tree.mk 0 [Tree.mk 5 []] }).2).any
        (fun c => c.eid == 5) = false := by
  constructor
  · exact (claim1_destroy_tool_gate _ 5 3
      { contains := [], room := Tree.mk 0 [Tree.mk 5 []] }
      (by decide) rfl rfl (by simp [occAux])
      (fun br h => by cases h; simp [occ, occAux])).1 rfl
  · exact ((claim1_destroy_tool_gate _ 5 3
      { contains := [Tree.mk 3 []], room := Tree.mk 0 [Tree.mk 5 []] }
      (by decide) rfl rfl (by simp [occAux])
      (fun br h => by cases h; simp [occ, occAux])).2 rfl).2.2

/-- C2 counterexample: destroying the Entity with id 1 (first child of the
room, broken replacement id 3) leaves the room's contained sequence as
`[2, 3]`: the replacement is appended at the end, not spliced into the
vacated index 0, which the claim would require (`[3, 2]`). -/
theorem claim2_counterexample :
    (destroy
        (fun n => if n = 1 then
            { name := "Wooden Crate", breakAble := true, brokenItem := some (Tree.mk 3 []) }
          else ({ name := "Broken Crate" } : EAttr))
        1 { contains := [], room := Tree.mk 0 [Tree.mk 1 [], Tree.mk 2 []] }).2.children.map
        Tree.eid
      = [2, 3]
    ∧ ([2, 3] : List Nat) ≠ [3, 2] := by
  constructor
  · simp [destroy, replaceSelf, removeFirst, replaceSelfAux, inContainerAux]
  · decide

/-- C2 (amended): destroying an Entity with a broken replacement splices the
replacement into the same container that directly held the destroyed Entity —
the set of containers directly holding the replacement afterwards equals the
set that held the Entity before — but appends it at the end of that
container's contained sequence rather than at the vacated index; the remaining
siblings keep their relative order (the new sequence minus the appended
replacement is a sublist of the old one). -/
theorem claim2_replace_same_container (x i : Nat) (r : Tree) (cs : List Tree)
    (h1 : occAux x cs ≤ 1) (h2 : occAux r.eid cs = 0) (h4 : occAux r.eid r.children = 0) :
    containerIds r.eid (replaceSelf x r (Tree.mk i cs)) = containerIds x (Tree.mk i cs)
    ∧ (cs.any (fun c => c.eid == x) = true →
        (replaceSelf x r (Tree.mk i cs)).children = removeFirst x cs ++ [r]
        ∧ List.Sublist (removeFirst x cs) cs) := by
  constructor
  · exact containerIds_replaceSelf x r (Tree.mk i cs) (by simpa using h1) (by simpa using h2) h4
  · intro hd
    exact ⟨by rw [replaceSelf_eq_direct x i r cs hd, children_mk], removeFirst_sublist x cs⟩

/-- C2 witness: replacing the node with id 1 by the node with id 3 inside the
container 0 keeps the container id and appends the replacement behind the
surviving sibling. -/
theorem claim2_witness :
    containerIds 3 (replaceSelf 1 (Tree.mk 3 []) (Tree.mk 0 [Tree.mk 1 [], Tree.mk 2 []]))
      = containerIds 1 (Tree.mk 0 [Tree.mk 1 [], Tree.mk 2 []])
    ∧ (replaceSelf 1 (Tree.mk 3 []) (Tree.mk 0 [Tree.mk 1 [], Tree.mk 2 []])).children
      = removeFirst 1 [Tree.mk 1 [], Tree.mk 2 []] ++ [Tree.mk 3 []] := by
  have h := claim2_replace_same_container 1 0 (Tree.mk 3 []) [Tree.mk 1 [], Tree.mk 2 []]
    (by simp [occAux]) (by simp [occAux]) (by simp [occAux])
  exact ⟨h.1, (h.2 (by simp)).1⟩

/-- C4 counterexample: the unmatched term "o" partially matches both visible
names and both satisfy the adjective check for "oak", yet the loop binds the
noun to the LAST satisfying candidate "oak chest" (the loop body overwrites
`noun` without breaking), not the first candidate "oak door" the claim
requires. -/
theorem claim4_counterexample :
    unmatchedTermStep [] ["oak door", "oak chest"] "oak" "o" "None" = "oak chest"
    ∧ "oak chest" ≠ "oak door" := by
  constructor
  · decide
  · decide

/-- C4 (amended): with several candidates, the tie-break binds the noun to the
last candidate (in pre-enumeration order) satisfying the adjective check —
unless that candidate is the literal string "None" — and only when no
candidate satisfies the check and no noun was previously bound does it default
to the first candidate in pre-enumeration order. -/
theorem claim4_disambiguate_last_match (tbl : List (String × String)) (adjective : String)
    (ms : List String) (noun0 : String) (hlen : 2 ≤ ms.length) :
    (∀ v, (ms.filter (adjSat tbl adjective)).getLast? = some v → v ≠ "None" →
      disambiguate tbl adjective ms noun0 = v)
    ∧ (ms.filter (adjSat tbl adjective) = [] → noun0 = "None" →
      disambiguate tbl adjective ms noun0 = ms.headD noun0) := by
  have h0 : ¬ (ms.length = 0) := by omega
  have h1 : ¬ (ms.length = 1) := by omega
  constructor
  · intro v hv hvne
    simp only [disambiguate]
    rw [if_neg h0, if_neg h1, foldl_pickD (adjSat tbl adjective) ms noun0, hv]
    simp [hvne]
  · intro hfil hn0
    simp only [disambiguate]
    rw [if_neg h0, if_neg h1, foldl_pickD (adjSat tbl adjective) ms noun0, hfil]
    simp [hn0]

/-- C4 witness: with adjective "oak" both candidates satisfy the check and the
last one is chosen even though a noun was already bound; with the unmatched
adjective "blue" and no previously bound noun, the first candidate wins. -/
theorem claim4_witness :
    disambiguate [] "oak" ["oak door", "oak chest"] "shed" = "oak chest"
    ∧ disambiguate [] "blue" ["north wall", "south wall"] "None" = "north wall" := by
  constructor
  · exact (claim4_disambiguate_last_match [] "oak" ["oak door", "oak chest"] "shed"
      (by decide)).1 "oak chest" (by decide) (by decide)
  · exact (claim4_disambiguate_last_match [] "blue" ["north wall", "south wall"] "None"
      (by decide)).2 (by decide) rfl

/-- C5 counterexample: an input with verb "look", two terms, no resolvable
noun and no compass adjective leaves the subject as the unresolved
placeholder — the claim instead requires the target to default to the
player's current Room whenever the noun is unset. -/
theorem claim5_counterexample :
    lookResolve (fun _ => ({ name := "Wall" } : EAttr)) 2 "None" (Tree.mk 0 []) none = none
    ∧ (none : Option Tree) ≠ some (Tree.mk 0 []) := by
  constructor
  · rfl
  · simp

/-- C5 (amended): the implicit-look rule targets the current Room exactly when
the input consists of a single term (not whenever the noun is unset); with
more than one term and a compass adjective the subject becomes the LAST wall
of the room with that orientation in enumeration order (none matching leaves
the prior subject), and otherwise the subject is left unchanged. -/
theorem claim5_lookResolve_spec (attr : Nat → EAttr) (termCount : Nat) (adjective : String)
    (room : Tree) (subject0 : Option Tree) :
    (termCount = 1 → lookResolve attr termCount adjective room subject0 = some room)
    ∧ (termCount ≠ 1 → (["N", "E", "W", "S"] : List String).contains adjective = true →
      lookResolve attr termCount adjective room subject0
        = ((inContainer room).filter (isWallDir attr adjective)).getLast?.elim subject0 some) := by
  constructor
  · intro h1
    rw [lookResolve, if_pos h1]
  · intro h1 hc
    rw [lookResolve, if_neg h1, if_pos hc, foldl_pickO (isWallDir attr adjective)]

/-- C5 witness: a single-term look targets the room itself; a two-term look
with adjective "N" over a room holding two north walls targets the last one. -/
theorem claim5_witness :
    lookResolve (fun _ => ({ name := "Wall", kind := EKind.wall } : EAttr)) 1 "N"
        (Tree.mk 0 [Tree.mk 1 [], Tree.mk 2 []]) none
      = some (Tree.mk 0 [Tree.mk 1 [], Tree.mk 2 []])
    ∧ lookResolve (fun _ => ({ name := "Wall", kind := EKind.wall } : EAttr)) 2 "N"
        (Tree.mk 0 [Tree.mk 1 [], Tree.mk 2 []]) none
      = some (Tree.mk 2 []) := by
  constructor
  · exact (claim5_lookResolve_spec _ 1 "N" _ none).1 rfl
  · have h := (claim5_lookResolve_spec (fun _ => ({ name := "Wall", kind := EKind.wall } : EAttr))
      2 "N" (Tree.mk 0 [Tree.mk 1 [], Tree.mk 2 []]) none).2 (by omega) (by decide)
    rw [h]
    simp [inContainer, inContainerAux, isWallDir]

/-- C9: the tool check of destroy inspects only the player's direct contains
list, while the key check of unlock searches the inventory transitively: a
required tool nested inside a carried container (absent from the direct list,
present in the transitive enumeration) still yields the need-tool rejection,
whereas a door key in the same nested position lets unlock succeed. -/
theorem claim9_tool_direct_key_transitive (attr : Nat → EAttr) (selfId k objId dk : Nat)
    (p q : PlayerSt)
    (hname : (attr selfId).name ≠ "Nothing")
    (hbreak : (attr selfId).breakAble = true)
    (hkey : (attr selfId).breakKey = some k)
    (hdirect : p.contains.any (fun c => c.eid == k) = false)
    (hnested : (inContainerAux p.contains).any (fun c => c.eid == k) = true)
    (hdname : (attr objId).name ≠ "Nothing")
    (hdoor : (attr objId).kind = EKind.door)
    (htrans : (inContainerAux q.contains).any (fun c => c.eid == dk) = true) :
    destroy attr selfId p
      = ("You need a " ++ (attr k).name ++ " to break the " ++ (attr selfId).name ++ ".",
          p.room)
    ∧ playerUnlock attr objId (some dk) q
      = ("You unlock the " ++ (attr objId).name ++ " with the " ++ (attr dk).name ++ ".",
          none) := by
  constructor
  · exact destroy_eq_needTool attr selfId k p hname hbreak hkey hdirect
  · simp only [playerUnlock]
    rw [if_neg hdname, if_neg (by rw [hdoor]; simp)]
    simp [htrans]

/-- C9 witness: a Sword with id 3 carried inside a bag (id 2): the Monster
cannot be destroyed with it, but the Oak Door locked with id 3 can be
unlocked. -/
theorem claim9_witness :
    destroy
        (fun n => if n = 5 then { name := "Monster", breakAble := true, breakKey := some 3 }
          else if n = 7 then { name := "Oak Door", kind := EKind.door }
          else ({ name := "Silvered Sword" } : EAttr))
        5 { contains := [Tree.mk 2 [Tree.mk 3 []]], room := Tree.mk 0 [Tree.mk 5 []] }
      = ("You need a Silvered Sword to break the Monster.", Tree.mk 0 [Tree.mk 5 []])
    ∧ playerUnlock
        (fun n => if n = 5 then { name := "Monster", breakAble := true, breakKey := some 3 }
          else if n = 7 then { name := "Oak Door", kind := EKind.door }
          else ({ name := "Silvered Sword" } : EAttr))
        7 (some 3)
        { contains := [Tree.mk 2 [Tree.mk 3 []]], room := Tree.mk 0 [Tree.mk 5 []] }
      = ("You unlock the Oak Door with the Silvered Sword.", none) :=
  claim9_tool_direct_key_transitive _ 5 3 7 3
    { contains := [Tree.mk 2 [Tree.mk 3 []]], room := Tree.mk 0 [Tree.mk 5 []] }
    { contains := [Tree.mk 2 [Tree.mk 3 []]], room := Tree.mk 0 [Tree.mk 5 []] }
    (by decide) rfl rfl (by decide) (by simp [inContainerAux]) (by decide) rfl
    (by simp [inContainerAux])

end TextAdventure
